import Mathlib

/- Verification of the polygon ingestion, reduction and clustering module of
the nsidc-subsetter repository: a shallow embedding of
src/subsetting_tools/polygon.py and of the polygon-file dispatch of
src/nsidc_subset_altimetry.py, with theorems settling the specification
claims about them. Machine floats of the source are modelled as rationals;
external library calls (shapely, numpy, sklearn, re) are modelled by their
documented behaviour where a claim depends on them, as noted per
definition. -/

namespace NsidcSubsetter

/-- A planar point, the (x, y) coordinate pair the readers handle. -/
abbrev Point : Type := ℚ × ℚ

/-- A coordinate ring: the ordered vertex list of one polygon or line
string. -/
abbrev LinearRing : Type := List Point

/-- One vector feature as fiona/geopandas present it to the readers: the
geometry type string, the feature id, and the geometry's coordinate rings (a
Polygon's coordinates member is a list of rings, a LineString's single
coordinate sequence is modelled as one ring). -/
structure Feature where
  gtype : String
  fid : String
  rings : List LinearRing
deriving DecidableEq

/-- The geometry types the readers keep (polygon.py lines 96, 147, 190). -/
def supportedGeometries : List String := [("LineString"), ("Polygon")]

/-- Pythonic truthiness of the VARIABLES option: None and the empty list are
falsy, a non-empty list is truthy (the readers test if variables). -/
def pyTruthy (vars : Option (List String)) : Bool :=
  match vars with
  | none => false
  | some l => !l.isEmpty

/-- Feature selection shared by from_geojson, from_kml and from_shapefile
(polygon.py lines 96-99, 147-150, 190-193): keep LineString and Polygon
features, then reduce to the ids listed in VARIABLES when that option is
truthy. -/
def selectFeatures (fs : List Feature) (vars : Option (List String)) :
    List Feature :=
  let g := fs.filter (fun ft => supportedGeometries.contains ft.gtype)
  if pyTruthy vars then
    g.filter (fun ft => (vars.getD []).contains ft.fid)
  else g

/-- from_geojson (polygon.py lines 79-117): the loop appends exactly one
shapely polygon per selected feature, built from the transpose of the
feature's whole coordinates member (well defined for line strings and
single-ring polygons, whose ring the member polygon carries). -/
def from_geojson (fs : List Feature) (vars : Option (List String)) :
    List LinearRing :=
  (selectFeatures fs vars).map (fun ft => ft.rings.headD [])

/-- from_kml (polygon.py lines 119-168): as for GeoJSON, one polygon is
appended per selected feature, from np.squeeze of its coordinates. -/
def from_kml (fs : List Feature) (vars : Option (List String)) :
    List LinearRing :=
  (selectFeatures fs vars).map (fun ft => ft.rings.headD [])

/-- from_shapefile (polygon.py lines 170-215): the inner loop iterates over
the coordinate rings of each selected entity and appends one polygon per
ring, so the result concatenates every feature's ring list. -/
def from_shapefile (fs : List Feature) (vars : Option (List String)) :
    List LinearRing :=
  (selectFeatures fs vars).flatMap (fun ft => ft.rings)

/-- The candidate cluster counts polygon.cluster tries (polygon.py line 237):
the Python loop for i in range(1, max_clusters). -/
def candidateCounts (max_clusters : ℕ) : List ℕ :=
  List.range' 1 (max_clusters - 1)

/-- The AIC scores the loop of polygon.py lines 237-246 records, one per
candidate count; the k-means fit and the floating-point AIC expression
(which takes the log of the within-cluster sum of squares) are abstracted as
a function from the candidate count to its score, evaluated unconditionally
for every candidate. -/
def buildAIC (aicOf : ℕ → ℚ) (max_clusters : ℕ) : List ℚ :=
  (candidateCounts max_clusters).map aicOf

/-- The elementwise comparison AIC[1:] < AIC[0:-1] of polygon.py line 248:
entry i is true iff the AIC entry at i+1 is below the AIC entry at i. -/
def decreasesList : List ℚ → List Bool
  | a :: b :: rest => decide (b < a) :: decreasesList (b :: rest)
  | _ => []

/-- np.nonzero over a boolean vector: the indices of the true entries, in
increasing order. -/
def npNonzero (l : List Bool) : List ℕ :=
  (List.range l.length).filter (fun i => l.getD i false)

/-- np.max over an index vector: the greatest entry, or the ValueError numpy
raises on an empty reduction. -/
def npMax (l : List ℕ) : Except String ℕ :=
  match l.max? with
  | some m => Except.ok m
  | none => Except.error
      ("ValueError: zero-size array to reduction operation maximum which has no identity")

/-- n_clusters = np.max(np.nonzero(AIC[1:] < AIC[0:-1])), polygon.py line
248. -/
def selectNClusters (aic : List ℚ) : Except String ℕ :=
  npMax (npNonzero (decreasesList aic))

/-- Python list index assignment l[i] = x: rebinds an existing slot and
raises IndexError when i is not an index of l. -/
def listAssign (l : List α) (i : ℕ) (x : α) : Except String (List α) :=
  if i < l.length then Except.ok (l.set i x)
  else Except.error ("IndexError: list assignment index out of range")

/-- The output loop of polygon.cluster (polygon.py lines 255-259):
temp.feature starts as the empty Python list and the loop executes
temp.feature[cluster] = mp.convex_hull for each cluster index below
n_clusters; hullOf abstracts the convex hull of the members k-means put in
that cluster. -/
def clusterAssignLoop (hullOf : ℕ → LinearRing) (n : ℕ) :
    Except String (List LinearRing) :=
  (List.range n).foldlM (fun acc c => listAssign acc c (hullOf c))
    ([] : List LinearRing)

/-- polygon.cluster (polygon.py lines 226-261): build the AIC scores over the
candidate counts, pick n_clusters as the greatest index at which the AIC
sequence still strictly decreases, then fill the fresh object's feature list
through Python index assignment. -/
def cluster (aicOf : ℕ → ℚ) (hullOf : ℕ → LinearRing) (max_clusters : ℕ) :
    Except String (List LinearRing) := do
  let aic := buildAIC aicOf max_clusters
  let n ← selectNClusters aic
  clusterAssignLoop hullOf n

/-- The mutable state of the polygon object (polygon.py __init__ and the
reader methods): the shapely multipolygon is modelled as the list of its
member rings. -/
structure PolygonObj where
  feature : List LinearRing
  epsg : ℤ
  shape : ℕ
deriving DecidableEq

/-- Every member coordinate of a multipolygon. -/
def allPoints (rings : List LinearRing) : List Point := rings.flatten

/-- shapely MultiPolygon.bounds: none for an empty geometry (shapely returns
an empty tuple, it does not raise), otherwise the fold of min and max over
every coordinate, giving (minx, miny, maxx, maxy). -/
def shapelyBounds (rings : List LinearRing) : Option (ℚ × ℚ × ℚ × ℚ) :=
  match allPoints rings with
  | [] => none
  | q :: rest =>
    some ((rest.map Prod.fst).foldl min q.1, (rest.map Prod.snd).foldl min q.2,
      (rest.map Prod.fst).foldl max q.1, (rest.map Prod.snd).foldl max q.2)

/-- polygon.bounds (polygon.py lines 276-280): return self.feature.bounds;
the body contains no raise statement, so the embedded call always returns. -/
def bounds (p : PolygonObj) : Except String (Option (ℚ × ℚ × ℚ × ℚ)) :=
  Except.ok (shapelyBounds p.feature)

/-- polygon.simplify (polygon.py lines 217-224): self.feature is reassigned
to the simplified geometry, self.shape is updated from it, and self itself is
returned. The pair holds the returned object first and the receiver's state
after the call second; simpFn abstracts the external per-member shapely
simplification at the given tolerance. -/
def simplify (simpFn : ℚ → LinearRing → LinearRing) (p : PolygonObj)
    (tolerance : ℚ) : PolygonObj × PolygonObj :=
  let newFeature := p.feature.map (simpFn tolerance)
  let pNew : PolygonObj :=
    { p with feature := newFeature, shape := newFeature.length }
  (pNew, pNew)

/-- Three points are collinear when the cross product of the two edge vectors
vanishes. -/
def collinear3 (a b c : Point) : Bool :=
  decide ((b.1 - a.1) * (c.2 - a.2) - (c.1 - a.1) * (b.2 - a.2) = 0)

/-- Modelled external behaviour: shapely simplify applies a
Douglas-Peucker-class reduction per member (the GEOS implementation lives
outside this repository). The model removes interior vertices collinear with
their neighbours, which Douglas-Peucker removes at every non-negative
tolerance; it under-approximates the vertices the real call removes. -/
def dropCollinear : LinearRing → LinearRing
  | a :: b :: rest =>
    match dropCollinear (b :: rest) with
    | b2 :: c2 :: rest2 =>
      if collinear3 a b2 c2 then a :: c2 :: rest2
      else a :: b2 :: c2 :: rest2
    | l => a :: l
  | l => l

/-- The shapely simplification model handed to the simplify method; the
tolerance does not change which exactly-collinear vertices go. -/
def shapelySimplify (tolerance : ℚ) (r : LinearRing) : LinearRing :=
  dropCollinear r

/-- The planar cross product of two position vectors, the shoelace summand. -/
def cross2 (p q : Point) : ℚ := p.1 * q.2 - q.1 * p.2

/-- Twice the signed area of a vertex sequence under the shoelace formula,
summed over adjacent vertex pairs (a shapely ring's coordinate list is
closed, first vertex repeated last, so this is the cyclic sum). -/
def shoelace : List Point → ℚ
  | p :: q :: rest => cross2 p q + shoelace (q :: rest)
  | _ => 0

/-- shapely.geometry.polygon.orient with sign=1 as called at polygon.py lines
286-287: keep the exterior ring when its signed area is non-negative,
otherwise reverse its coordinate list. -/
def orientSign1 (r : LinearRing) : LinearRing :=
  if 0 ≤ shoelace r then r else r.reverse

/-- polygon.convex_hull (polygon.py lines 282-289): self.feature becomes the
convex hull reoriented counter-clockwise; the hull ring GEOS computes is
abstracted as the input ring. -/
def convex_hull (hull : LinearRing) : LinearRing := orientSign1 hull

/-- The last index at which a character occurs in a character list (str.rfind
of os.path). -/
def rfindIdx (c : Char) (cs : List Char) : Option ℕ :=
  ((List.range cs.length).filter (fun i => decide (cs.getD i c = c))).max?

/-- os.path.splitext restricted to its extension component: the extension
starts at the last dot after the last path separator, unless every character
between the separator and that dot is itself a dot (the leading-dot rule);
otherwise the extension is empty. -/
def splitextExt (s : String) : String :=
  let cs := s.toList
  let s0 : ℕ := match rfindIdx '/' cs with
    | none => 0
    | some k => k + 1
  match rfindIdx '.' cs with
  | none => ("")
  | some d =>
    if s0 ≤ d ∧
        (List.range d).any
          (fun j => decide (s0 ≤ j) && decide (cs.getD j '.' ≠ '.')) = true then
      String.mk (cs.drop d)
    else ("")

/-- Splitting a character list at commas, as str.split does with a comma
separator (an empty list yields one empty field). -/
def splitCommas : List Char → List Char → List String
  | [], acc => [String.mk acc.reverse]
  | c :: rest, acc =>
    if c = ',' then String.mk acc.reverse :: splitCommas rest []
    else splitCommas rest (c :: acc)

/-- The regex split of nsidc_subset_altimetry.py line 175, re.match applied
to the pattern (.*?)(\[(.*?)\])?$ : with the lazy groups this takes the
shortest prefix, so when the argument ends in a closing bracket and contains
an opening one, group 1 is everything before the first opening bracket and
group 3 is the comma list between it and the final character; otherwise the
optional group is unmatched and the variables stay None (line 178). -/
def parsePolySuffix (s : String) : String × Option (List String) :=
  let cs := s.toList
  match cs.findIdx? (fun ch => ch = '['), cs.getLast? with
  | some i, some ch =>
    if ch = ']' then
      (String.mk (cs.take i), some (splitCommas ((cs.drop (i + 1)).dropLast) []))
    else (s, none)
  | _, _ => (s, none)

/-- The reader picked by the extension dispatch. -/
inductive ReaderKind
  | shp
  | kml
  | geojson
deriving DecidableEq

/-- The polygon-file dispatch of nsidc_subset_altimetry.py lines 171-192:
fileExtension is os.path.splitext of the raw POLYGON argument, the bracket
suffix is then split off by the regex, and the extension selects the reader,
with the compressed flag for .zip and .kmz; an extension outside the listed
six raises IOError. The ok value carries the reader, the compressed flag, the
filename passed to the reader and the variables list. -/
def polygonDispatch (POLYGON : String) :
    Except String (ReaderKind × Bool × String × Option (List String)) :=
  let fileExtension := splitextExt POLYGON
  let fv := parsePolySuffix POLYGON
  if fileExtension = ".shp" ∨ fileExtension = ".zip" then
    Except.ok (ReaderKind.shp, decide (fileExtension = ".zip"), fv.1, fv.2)
  else if fileExtension = ".kml" ∨ fileExtension = ".kmz" then
    Except.ok (ReaderKind.kml, decide (fileExtension = ".kmz"), fv.1, fv.2)
  else if fileExtension = ".json" ∨ fileExtension = ".geojson" then
    Except.ok (ReaderKind.geojson, false, fv.1, fv.2)
  else
    Except.error ("IOError: Unlisted polygon type (" ++ fileExtension ++ ")")

/-- One element of the modelled regular-expression pattern: Python re
interprets a dot as a wildcard and other ordinary characters literally; this
models the fragment of re exercised by basename patterns. -/
inductive RChar
  | lit (c : Char)
  | anychar
deriving DecidableEq

/-- Compiling a pattern string under the modelled fragment of Python re. -/
def parsePattern (s : String) : List RChar :=
  s.toList.map (fun c => if c = '.' then RChar.anychar else RChar.lit c)

/-- re.match with re.I: the pattern is anchored at the start of the candidate
only, characters compare case-insensitively, and any trailing candidate text
after the pattern is exhausted is accepted (prefix semantics). -/
def matchAnchored : List RChar → List Char → Bool
  | [], _ => true
  | _ :: _, [] => false
  | RChar.anychar :: rs, _ :: cs => matchAnchored rs cs
  | RChar.lit a :: rs, c :: cs =>
    a.toLower = c.toLower && matchAnchored rs cs

/-- The predicate re.match(basename, f, re.I) of polygon.py line 73, under
the modelled re fragment. -/
def reMatchCI (pattern s : String) : Bool :=
  matchAnchored (parsePattern pattern) s.toList

/-- The fallback search of polygon.case_insensitive_filename (polygon.py
lines 69-77): filter the directory listing by the anchored case-insensitive
regex match against the basename, raise IOError when nothing matches, and
otherwise take f.pop(), the last element of the filtered listing. -/
def case_insensitive_search (basename : String) (listing : List String) :
    Except String String :=
  match (listing.filter (fun name => reMatchCI basename name)).getLast? with
  | none => Except.error ("IOError: " ++ basename ++ " not found in file system")
  | some x => Except.ok x

/-- os.path.basename: the part of the path after the last separator. -/
def pyBasename (s : String) : String :=
  match rfindIdx '/' s.toList with
  | none => s
  | some k => String.mk (s.toList.drop (k + 1))

/-- polygon.case_insensitive_filename (polygon.py lines 63-77): when the file
exists with the input case the filename is kept, otherwise the directory
listing is searched with the path's basename as the pattern. -/
def case_insensitive_filename (fileFound : Bool) (filename : String)
    (listing : List String) : Except String String :=
  if fileFound then Except.ok filename
  else case_insensitive_search (pyBasename filename) listing

/-- A concrete AIC score sequence over the candidate counts 1..4: the scores
5, 4, 3, 6, which strictly decrease and then increase. -/
def aicSeqC1 : ℕ → ℚ :=
  fun i => if i = 1 then 5 else if i = 2 then 4 else if i = 3 then 3 else 6

/-- A placeholder per-cluster hull, never reached on the failing inputs. -/
def hullZero : ℕ → LinearRing := fun _ => []

/-- A shapefile Polygon feature with an exterior ring and one interior
ring. -/
def twoRingFeature : Feature :=
  { gtype := ("Polygon"), fid := ("A"),
    rings := [[(0, 0), (4, 0), (4, 4), (0, 4), (0, 0)],
      [(1, 1), (2, 1), (2, 2), (1, 2), (1, 1)]] }

/-- The polygon object holding zero member polygons. -/
def emptyPolygonSet : PolygonObj := { feature := [], epsg := 4326, shape := 0 }

/-- A polygon object whose single member ring carries a redundant collinear
vertex at (1, 0). -/
def collinearSquare : PolygonObj :=
  { feature := [[(0, 0), (1, 0), (2, 0), (2, 2), (0, 2), (0, 0)]],
    epsg := 4326, shape := 1 }

/-- The two disjoint unit squares of the specification's concrete scenario,
one at (0,0)-(1,1) and one at (10,10)-(11,11). -/
def twoSquares : PolygonObj :=
  { feature := [[(0, 0), (1, 0), (1, 1), (0, 1), (0, 0)],
      [(10, 10), (11, 10), (11, 11), (10, 11), (10, 10)]],
    epsg := 4326, shape := 2 }

/-- C1: the claim says cluster returns a set with exactly one hull per
cluster and, for maxClusters 1, the input's own hull; on the code, filling
temp.feature by index assignment into the empty list raises IndexError for
every selected cluster count of at least one (here AIC scores 5, 4, 3, 6
select n_clusters 1), and maxClusters 1 leaves the AIC comparison empty so
np.max raises ValueError. -/
theorem cluster_raises_instead_of_returning_members :
    cluster aicSeqC1 hullZero 5 =
      Except.error ("IndexError: list assignment index out of range") ∧
    cluster aicSeqC1 hullZero 1 =
      Except.error
        ("ValueError: zero-size array to reduction operation maximum which has no identity") := by
  constructor
  · rfl
  · rfl

/-- C2: the claim says the trailing bracket suffix selects the variables
while dispatch uses the underlying extension; on the code, os.path.splitext
runs on the raw argument, so the extension of file.geojson[A,B] is
.geojson[A,B], no reader branch matches and IOError is raised, even though
the regex split one line earlier extracts the filename and the id list; the
plain path still dispatches to the GeoJSON reader. -/
theorem dispatch_rejects_bracket_suffix :
    polygonDispatch ("file.geojson[A,B]") =
      Except.error ("IOError: Unlisted polygon type (.geojson[A,B])") ∧
    parsePolySuffix ("file.geojson[A,B]") =
      (("file.geojson"), some [("A"), ("B")]) ∧
    polygonDispatch ("file.geojson") =
      Except.ok (ReaderKind.geojson, false, ("file.geojson"), none) := by
  refine ⟨?_, ?_, ?_⟩
  · rfl
  · rfl
  · rfl

/-- C4 counterexample: with two input polygons and the default maxClusters
25, the candidate count 2 equals the number of inputs, so the candidate
counts are not capped below n; the zero within-cluster sum of squares case
is therefore reachable. -/
theorem candidate_counts_not_capped_counterexample :
    2 ∈ candidateCounts 25 ∧ ¬(∀ k ∈ candidateCounts 25, k < 2) := by
  decide

/-- C5 counterexample: one shapefile Polygon feature carrying two coordinate
rings yields two members, not one member for the one feature. -/
theorem shapefile_ring_count_counterexample :
    (from_shapefile [twoRingFeature] none).length = 2 ∧ (2 : ℕ) ≠ 1 := by
  constructor
  · rfl
  · decide

/-- C6 counterexample: bounds on the polygon set of zero members returns
(shapely's empty bounds, modelled none) instead of raising; no EmptySetError
exists in the code. -/
theorem bounds_empty_returns_counterexample :
    bounds emptyPolygonSet = Except.ok none := by
  rfl

/-- C8 counterexample: after calling simplify on a member carrying a
redundant collinear vertex, the receiver's member collection has changed,
so the call does not leave the source set unchanged. -/
theorem simplify_mutates_receiver_counterexample :
    (simplify shapelySimplify collinearSquare 0).2.feature ≠
      collinearSquare.feature := by
  have e : dropCollinear [((0 : ℚ), (0 : ℚ)), (1, 0), (2, 0), (2, 2), (0, 2), (0, 0)] =
      [(0, 0), (2, 0), (2, 2), (0, 2), (0, 0)] := by
    norm_num [dropCollinear, collinear3]
  simp only [simplify, shapelySimplify, collinearSquare, List.map]
  rw [e]
  decide

/-- C9: a provided-but-empty variables list is falsy in Python, so each of
the three readers applies no id filtering at all and keeps every LineString
and Polygon feature, exactly as with an absent filter. -/
theorem empty_variables_list_no_filter (fs : List Feature) :
    from_geojson fs (some []) = from_geojson fs none ∧
    from_kml fs (some []) = from_kml fs none ∧
    from_shapefile fs (some []) = from_shapefile fs none ∧
    selectFeatures fs (some []) =
      fs.filter (fun ft => supportedGeometries.contains ft.gtype) := by
  refine ⟨rfl, rfl, rfl, rfl⟩

/-- An index is in npNonzero exactly when it indexes a true entry. -/
theorem mem_npNonzero (l : List Bool) (i : ℕ) :
    i ∈ npNonzero l ↔ i < l.length ∧ l.getD i false = true := by
  simp [npNonzero, List.mem_filter, List.mem_range]

/-- The elementwise comparison has one entry fewer than the AIC sequence. -/
theorem decreasesList_length (aic : List ℚ) :
    (decreasesList aic).length = aic.length - 1 := by
  induction aic with
  | nil => simp [decreasesList]
  | cons a rest ih =>
    cases rest with
    | nil => simp [decreasesList]
    | cons b rest2 =>
      simp only [decreasesList, List.length_cons] at ih ⊢
      omega

/-- Entry i of the elementwise comparison is true exactly when the AIC entry
at i+1 lies strictly below the AIC entry at i. -/
theorem decreasesList_getD (aic : List ℚ) :
    ∀ i, ((decreasesList aic).getD i false = true ↔
      i + 1 < aic.length ∧ aic.getD (i + 1) 0 < aic.getD i 0) := by
  induction aic with
  | nil => intro i; simp [decreasesList]
  | cons a rest ih =>
    intro i
    cases rest with
    | nil => simp [decreasesList]
    | cons b rest2 =>
      cases i with
      | zero =>
        simp [decreasesList]
      | succ j =>
        have hj := ih j
        simp only [decreasesList, List.getD_cons_succ, List.length_cons] at hj ⊢
        rw [hj]
        constructor
        · rintro ⟨h, h2⟩
          exact ⟨by omega, h2⟩
        · rintro ⟨h, h2⟩
          exact ⟨by omega, h2⟩

/-- The ok value of npMax is the greatest member of the list. -/
theorem npMax_ok_iff (l : List ℕ) (n : ℕ) :
    npMax l = Except.ok n ↔ n ∈ l ∧ ∀ m ∈ l, m ≤ n := by
  have h : l.max? = some n ↔ n ∈ l ∧ ∀ m ∈ l, m ≤ n :=
    List.max?_eq_some_iff Nat.le_refl (fun a b => max_choice a b)
      (fun a b c => Nat.max_le)
  rw [← h]
  unfold npMax
  cases hm : l.max? with
  | none => simp
  | some m => simp

/-- The spec-language property of index i that the AIC sequence strictly
decreases from entry i to entry i+1. -/
def decreaseAt (aic : List ℚ) (i : ℕ) : Prop :=
  i + 1 < aic.length ∧ aic.getD (i + 1) 0 < aic.getD i 0

/-- C3 counterexample: on the AIC scores 5, 4, 3, 6 the last strict decrease
is at comparison index 1 (entry 3 below entry 4), yet the code selects
n_clusters 1, not 1 + 1 as the claim states. -/
theorem select_not_one_plus_counterexample :
    selectNClusters ([5, 4, 3, 6] : List ℚ) = Except.ok 1 ∧
    decreasesList ([5, 4, 3, 6] : List ℚ) = [true, true, false] ∧
    (1 : ℕ) ≠ 1 + 1 := by
  refine ⟨rfl, rfl, by decide⟩

/-- C3 amended: the chosen cluster count is exactly the greatest zero-based
index at which the AIC sequence still strictly decreases (one less than the
claim's one-plus value), and the selection errors when no strict decrease
exists. -/
theorem select_eq_greatest_decrease_index (aic : List ℚ) (n : ℕ) :
    selectNClusters aic = Except.ok n ↔
      decreaseAt aic n ∧ ∀ m, decreaseAt aic m → m ≤ n := by
  unfold selectNClusters
  rw [npMax_ok_iff]
  have hlen := decreasesList_length aic
  constructor
  · rintro ⟨hmem, hub⟩
    rw [mem_npNonzero] at hmem
    obtain ⟨hl, ht⟩ := hmem
    rw [decreasesList_getD] at ht
    refine ⟨ht, ?_⟩
    intro m hm
    apply hub
    rw [mem_npNonzero, decreasesList_getD]
    obtain ⟨hm1, hm2⟩ := hm
    exact ⟨by omega, hm1, hm2⟩
  · rintro ⟨⟨h1, h2⟩, hub⟩
    constructor
    · rw [mem_npNonzero, decreasesList_getD]
      exact ⟨by omega, h1, h2⟩
    · intro m hmem
      rw [mem_npNonzero, decreasesList_getD] at hmem
      exact hub m ⟨hmem.2.1, hmem.2.2⟩

/-- C3 witness: on the AIC scores 10, 7, 9 the only strict decrease is at
index 0 and the selection returns 0. -/
theorem select_greatest_decrease_witness :
    selectNClusters ([10, 7, 9] : List ℚ) = Except.ok 0 :=
  (select_eq_greatest_decrease_index ([10, 7, 9] : List ℚ) 0).mpr
    ⟨⟨by decide, by decide⟩, by
      rintro m ⟨hm1, hm2⟩
      simp only [List.length_cons, List.length_nil] at hm1
      have h2 : m = 0 ∨ m = 1 := by omega
      rcases h2 with rfl | rfl
      · exact Nat.le_refl 0
      · exact absurd hm2 (by decide)⟩

/-- C4 amended: the candidate cluster counts are exactly 1 through
maxClusters - 1 regardless of the number of input polygons, and the AIC
score is built unconditionally for every candidate, so no cap below the
input count and no zero-WCSS special case exists. -/
theorem candidate_counts_uncapped (mc k : ℕ) (aicOf : ℕ → ℚ) :
    (k ∈ candidateCounts mc ↔ 1 ≤ k ∧ k < mc) ∧
    buildAIC aicOf mc = (candidateCounts mc).map aicOf := by
  refine ⟨?_, rfl⟩
  unfold candidateCounts
  rw [List.mem_range'_1]
  omega

/-- C5 amended: with no variables filter, the GeoJSON and KML readers return
one member per selected LineString or Polygon feature, while the shapefile
reader returns one member per coordinate ring, the total ring count of the
selected features (equal to the feature count only when every feature has a
single ring). -/
theorem reader_member_counts (fs : List Feature) :
    (from_geojson fs none).length =
      (fs.filter (fun ft => supportedGeometries.contains ft.gtype)).length ∧
    (from_kml fs none).length =
      (fs.filter (fun ft => supportedGeometries.contains ft.gtype)).length ∧
    (from_shapefile fs none).length =
      ((fs.filter (fun ft => supportedGeometries.contains ft.gtype)).map
        (fun ft => ft.rings.length)).sum := by
  refine ⟨?_, ?_, ?_⟩
  · simp [from_geojson, selectFeatures, pyTruthy]
  · simp [from_kml, selectFeatures, pyTruthy]
  · simp [from_shapefile, selectFeatures, pyTruthy, List.length_flatMap,
      Function.comp_def]

/-- A left fold of min never exceeds its initial value. -/
theorem foldl_min_le_init (l : List ℚ) : ∀ a : ℚ, l.foldl min a ≤ a := by
  induction l with
  | nil => intro a; simp
  | cons x xs ih =>
    intro a
    simp only [List.foldl_cons]
    exact le_trans (ih (min a x)) (min_le_left a x)

/-- A left fold of min never exceeds a member of the list. -/
theorem foldl_min_le_mem (l : List ℚ) :
    ∀ a x, x ∈ l → l.foldl min a ≤ x := by
  induction l with
  | nil => intro a x hx; simp at hx
  | cons y ys ih =>
    intro a x hx
    simp only [List.foldl_cons]
    rcases List.mem_cons.mp hx with h | h
    · subst h
      exact le_trans (foldl_min_le_init ys (min a x)) (min_le_right a x)
    · exact ih (min a y) x h

/-- A left fold of min is the initial value or a member of the list. -/
theorem foldl_min_choice (l : List ℚ) :
    ∀ a : ℚ, l.foldl min a = a ∨ l.foldl min a ∈ l := by
  induction l with
  | nil => intro a; left; rfl
  | cons y ys ih =>
    intro a
    simp only [List.foldl_cons]
    rcases ih (min a y) with h | h
    · rcases min_choice a y with h2 | h2
      · left; rw [h, h2]
      · right; rw [h, h2]; exact List.mem_cons_self y ys
    · right; exact List.mem_cons_of_mem y h

/-- A left fold of max is at least its initial value. -/
theorem le_foldl_max_init (l : List ℚ) : ∀ a : ℚ, a ≤ l.foldl max a := by
  induction l with
  | nil => intro a; simp
  | cons x xs ih =>
    intro a
    simp only [List.foldl_cons]
    exact le_trans (le_max_left a x) (ih (max a x))

/-- A left fold of max is at least each member of the list. -/
theorem le_foldl_max_mem (l : List ℚ) :
    ∀ a x, x ∈ l → x ≤ l.foldl max a := by
  induction l with
  | nil => intro a x hx; simp at hx
  | cons y ys ih =>
    intro a x hx
    simp only [List.foldl_cons]
    rcases List.mem_cons.mp hx with h | h
    · subst h
      exact le_trans (le_max_right a x) (le_foldl_max_init ys (max a x))
    · exact ih (max a y) x h

/-- A left fold of max is the initial value or a member of the list. -/
theorem foldl_max_choice (l : List ℚ) :
    ∀ a : ℚ, l.foldl max a = a ∨ l.foldl max a ∈ l := by
  induction l with
  | nil => intro a; left; rfl
  | cons y ys ih =>
    intro a
    simp only [List.foldl_cons]
    rcases ih (max a y) with h | h
    · rcases max_choice a y with h2 | h2
      · left; rw [h, h2]
      · right; rw [h, h2]; exact List.mem_cons_self y ys
    · right; exact List.mem_cons_of_mem y h

/-- C6 amended: bounds never raises (there is no EmptySetError in the code;
the empty set yields shapely's empty bounds) and on a set with at least one
coordinate it returns the componentwise minima and maxima over every member
coordinate, each bounding all points and attained by one of them. -/
theorem bounds_returns_min_max_box (p : PolygonObj) (a b c d : ℚ)
    (h : shapelyBounds p.feature = some (a, b, c, d)) :
    bounds p = Except.ok (some (a, b, c, d)) ∧
    (∀ q ∈ allPoints p.feature, a ≤ q.1 ∧ b ≤ q.2 ∧ q.1 ≤ c ∧ q.2 ≤ d) ∧
    (∃ q ∈ allPoints p.feature, q.1 = a) ∧
    (∃ q ∈ allPoints p.feature, q.2 = b) ∧
    (∃ q ∈ allPoints p.feature, q.1 = c) ∧
    (∃ q ∈ allPoints p.feature, q.2 = d) := by
  refine ⟨by rw [bounds, h], ?_⟩
  unfold shapelyBounds at h
  cases hap : allPoints p.feature with
  | nil => rw [hap] at h; simp at h
  | cons q0 rest =>
    rw [hap] at h
    simp only [Option.some.injEq, Prod.mk.injEq] at h
    obtain ⟨ha, hb, hc, hd⟩ := h
    refine ⟨?_, ?_, ?_, ?_, ?_⟩
    · intro q hq
      rcases List.mem_cons.mp hq with rfl | hq2
      · exact ⟨ha ▸ foldl_min_le_init (rest.map Prod.fst) q.1,
          hb ▸ foldl_min_le_init (rest.map Prod.snd) q.2,
          hc ▸ le_foldl_max_init (rest.map Prod.fst) q.1,
          hd ▸ le_foldl_max_init (rest.map Prod.snd) q.2⟩
      · refine ⟨?_, ?_, ?_, ?_⟩
        · exact ha ▸ foldl_min_le_mem (rest.map Prod.fst) q0.1 q.1
            (List.mem_map_of_mem Prod.fst hq2)
        · exact hb ▸ foldl_min_le_mem (rest.map Prod.snd) q0.2 q.2
            (List.mem_map_of_mem Prod.snd hq2)
        · exact hc ▸ le_foldl_max_mem (rest.map Prod.fst) q0.1 q.1
            (List.mem_map_of_mem Prod.fst hq2)
        · exact hd ▸ le_foldl_max_mem (rest.map Prod.snd) q0.2 q.2
            (List.mem_map_of_mem Prod.snd hq2)
    · rcases foldl_min_choice (rest.map Prod.fst) q0.1 with h2 | h2
      · exact ⟨q0, List.mem_cons_self q0 rest, by rw [← ha, h2]⟩
      · obtain ⟨q, hq, hq1⟩ := List.mem_map.mp h2
        exact ⟨q, List.mem_cons_of_mem q0 hq, by rw [← ha, hq1]⟩
    · rcases foldl_min_choice (rest.map Prod.snd) q0.2 with h2 | h2
      · exact ⟨q0, List.mem_cons_self q0 rest, by rw [← hb, h2]⟩
      · obtain ⟨q, hq, hq1⟩ := List.mem_map.mp h2
        exact ⟨q, List.mem_cons_of_mem q0 hq, by rw [← hb, hq1]⟩
    · rcases foldl_max_choice (rest.map Prod.fst) q0.1 with h2 | h2
      · exact ⟨q0, List.mem_cons_self q0 rest, by rw [← hc, h2]⟩
      · obtain ⟨q, hq, hq1⟩ := List.mem_map.mp h2
        exact ⟨q, List.mem_cons_of_mem q0 hq, by rw [← hc, hq1]⟩
    · rcases foldl_max_choice (rest.map Prod.snd) q0.2 with h2 | h2
      · exact ⟨q0, List.mem_cons_self q0 rest, by rw [← hd, h2]⟩
      · obtain ⟨q, hq, hq1⟩ := List.mem_map.mp h2
        exact ⟨q, List.mem_cons_of_mem q0 hq, by rw [← hd, hq1]⟩

/-- C6 witness: the two disjoint unit squares of the specification's
concrete scenario produce the box (0, 0, 11, 11). -/
theorem bounds_returns_min_max_box_witness :
    bounds twoSquares = Except.ok (some (0, 0, 11, 11)) :=
  (bounds_returns_min_max_box twoSquares 0 0 11 11 (by decide)).1

/-- The shoelace contribution of a vertex against the head of the rest. -/
def headCross (p : Point) (l : List Point) : ℚ :=
  match l.head? with
  | some q => cross2 p q
  | none => 0

/-- The shoelace contribution of an appended vertex against the last vertex
so far. -/
def lastCross (l : List Point) (x : Point) : ℚ :=
  match l.getLast? with
  | some y => cross2 y x
  | none => 0

/-- The planar cross product is antisymmetric. -/
theorem cross2_antisymm (p q : Point) : cross2 q p = -cross2 p q := by
  unfold cross2
  ring

/-- Peeling the head off the shoelace sum. -/
theorem shoelace_cons (p : Point) (l : List Point) :
    shoelace (p :: l) = headCross p l + shoelace l := by
  cases l with
  | nil => simp [shoelace, headCross]
  | cons q rest => simp [shoelace, headCross]

/-- Appending a vertex adds its cross product with the previous last
vertex. -/
theorem shoelace_snoc (l : List Point) (x : Point) :
    shoelace (l ++ [x]) = shoelace l + lastCross l x := by
  induction l with
  | nil => simp [shoelace, lastCross]
  | cons a l ih =>
    cases l with
    | nil => simp [shoelace, lastCross, cross2]
    | cons b rest =>
      have hlast : (a :: b :: rest).getLast? = (b :: rest).getLast? := by
        simp [List.getLast?_cons_cons]
      calc shoelace ((a :: b :: rest) ++ [x])
          = cross2 a b + shoelace ((b :: rest) ++ [x]) := by simp [shoelace]
        _ = cross2 a b + (shoelace (b :: rest) + lastCross (b :: rest) x) := by
            rw [ih]
        _ = shoelace (a :: b :: rest) + lastCross (a :: b :: rest) x := by
            simp [shoelace, lastCross, hlast]
            ring

/-- Reversing a vertex sequence negates its shoelace sum. -/
theorem shoelace_reverse (l : List Point) :
    shoelace l.reverse = -shoelace l := by
  induction l with
  | nil => simp [shoelace]
  | cons a l ih =>
    rw [List.reverse_cons, shoelace_snoc, ih, shoelace_cons]
    unfold lastCross headCross
    rw [List.getLast?_reverse]
    cases hl : l.head? with
    | none => simp
    | some q =>
      show -shoelace l + cross2 q a = -(cross2 a q + shoelace l)
      rw [cross2_antisymm]
      ring

/-- C7: the exterior ring convex_hull installs has non-negative signed area
under the shoelace formula: the orient call keeps a counter-clockwise hull
ring and reverses a clockwise one, whose shoelace sum flips sign. -/
theorem convex_hull_ccw (hull : LinearRing) :
    0 ≤ shoelace (convex_hull hull) := by
  unfold convex_hull orientSign1
  split
  · assumption
  · rename_i h
    rw [shoelace_reverse]
    push_neg at h
    linarith

/-- The collinear-vertex removal model never increases the vertex count. -/
theorem dropCollinear_length (r : LinearRing) :
    (dropCollinear r).length ≤ r.length := by
  induction r with
  | nil => simp [dropCollinear]
  | cons a rest ih =>
    cases rest with
    | nil => simp [dropCollinear]
    | cons b rest2 =>
      simp only [dropCollinear]
      cases hd : dropCollinear (b :: rest2) with
      | nil => simp
      | cons b2 tail =>
        rw [hd] at ih
        cases tail with
        | nil =>
          show (a :: [b2]).length ≤ (a :: b :: rest2).length
          simp only [List.length_cons] at ih ⊢
          omega
        | cons c2 rest3 =>
          show (if collinear3 a b2 c2 then a :: c2 :: rest3
            else a :: b2 :: c2 :: rest3).length ≤ (a :: b :: rest2).length
          simp only [List.length_cons] at ih
          split
          · simp only [List.length_cons]
            omega
          · simp only [List.length_cons]
            omega

/-- C8 amended: simplify applies the per-member simplification and returns
the receiver itself after updating it in place: the returned object is the
receiver's post-state, whose member collection is the map of the
simplification over the old members (so the receiver's collection is
updated, not left unchanged), and the modelled reduction never increases a
member's vertex count. -/
theorem simplify_returns_mutated_receiver
    (simpFn : ℚ → LinearRing → LinearRing) (p : PolygonObj) (tol : ℚ) :
    (simplify simpFn p tol).1 = (simplify simpFn p tol).2 ∧
    (simplify simpFn p tol).2.feature = p.feature.map (simpFn tol) ∧
    ∀ r : LinearRing, (shapelySimplify tol r).length ≤ r.length := by
  refine ⟨rfl, rfl, ?_⟩
  intro r
  exact dropCollinear_length r

/-- C10: the fallback search filters the directory listing by the anchored
case-insensitive regex match of the basename (so the basename acts as a
case-insensitive regex prefix pattern) and selects the last matching entry
of the listing; concretely, a dot in the basename matches any character,
matching is anchored at the start only, and trailing text is accepted. -/
theorem case_insensitive_search_last_match :
    (∀ (pat : String) (listing : List String) (x : String),
      (listing.filter (fun s => reMatchCI pat s)).getLast? = some x →
      case_insensitive_search pat listing = Except.ok x) ∧
    reMatchCI ("data.shp") ("DATAXSHP-2020") = true ∧
    reMatchCI ("ab") ("ABCD") = true ∧
    reMatchCI ("ab") ("xab") = false := by
  refine ⟨?_, rfl, rfl, rfl⟩
  intro pat listing x h
  unfold case_insensitive_search
  rw [h]

/-- C10 witness: both listing entries match the pattern as a
case-insensitive prefix regex and the search returns the later one. -/
theorem case_insensitive_search_last_match_witness :
    case_insensitive_search ("foo.shp") [("FOO.SHP1"), ("other"), ("foo.shpx")] =
      Except.ok ("foo.shpx") :=
  case_insensitive_search_last_match.1 ("foo.shp")
    [("FOO.SHP1"), ("other"), ("foo.shpx")] ("foo.shpx") (by rfl)

end NsidcSubsetter
